import Mathlib

/-!
Verification development for the quorate tool (a NationStates World Assembly
proposal scanner).  The Lean definitions below are a shallow embedding of the
program's core: the rate-limited API client (`ns-client.go`) and the
candidate ranking / trigger matching pipeline (the main file).  Go `int` and
`int64` values are modelled as `Int` (the quantities involved — endorsement
counts, epoch-second timestamps, rate-limit headers — never approach the
64-bit range, so wrap-around is not modelled).  Effectful code (HTTP requests,
sleeping) is modelled by explicit scripts of responses and by recording the
sequence of sleep durations.
-/

namespace Quorate

/-- The `Hit` record from the main file: one actionable candidate region. -/
structure Hit where
  Name : String
  Delegate : String
  SecondNation : String
  IsDeltip : Bool
  UpdateTime : Int
  TriggerRegion : String
  TriggerTime : Int
deriving DecidableEq, Repr

/-- One record of the daily regions dump (`RegionDump` in the main file). -/
structure RegionDump where
  Name : String
  LastMinor : Int
  LastMajor : Int
deriving DecidableEq, Repr

/-- The `RegionInfo` record produced by `GetRegioninfo` in `ns-client.go`. -/
structure RegionInfo where
  DelEndos : Int
  SecondEndos : Int
  SecondNation : String
  Password : Bool
  LastMajor : Int
  LastMinor : Int
deriving DecidableEq, Repr

/-- Canonicalization of one character: ASCII lower-casing (the Lean core
`Char.toLower`, matching Go `strings.ToLower` on ASCII names) followed by
replacing a space with an underscore. -/
def canonChar (c : Char) : Char :=
  let lc := c.toLower
  if lc = ' ' then '_' else lc

/-- Region-name canonicalization used throughout the main file:
`strings.Replace(strings.ToLower(name), " ", "_", -1)`. -/
def canon (s : String) : String :=
  String.mk (s.data.map canonChar)

/-- Default `Hit` (the Go zero value), used to totalize list indexing. -/
def emptyHit : Hit :=
  { Name := "", Delegate := "", SecondNation := "", IsDeltip := false,
    UpdateTime := 0, TriggerRegion := "", TriggerTime := 0 }

/-- Total indexing into the hittable list (`hittable[i]` in Go; the source
only indexes in bounds). -/
def hitAt (l : List Hit) (i : Nat) : Hit :=
  (l.get? i).getD emptyHit

/-- Name of the hit at index `i` (`hittable[i].Name` in Go). -/
def hitNameAt (l : List Hit) (i : Nat) : String :=
  (hitAt l i).Name

/-- The state threaded through the trigger-matching loop of the main file:
the (mutated in place) `hittable` slice, the `hitIndex` cursor and the
`updateTimes` map.  The map is modelled as an association list with
first-write-wins insertion, matching the `if !exists` guard in the source. -/
structure MatchState where
  hittable : List Hit
  hitIndex : Nat
  updateTimes : List (Int × String)
deriving DecidableEq, Repr

/-- The guarded insertion `if _, exists := updateTimes[t]; !exists
then updateTimes[t] = name` from the matching loop. -/
def insertFirstWins (updateTimes : List (Int × String)) (t : Int) (name : String) :
    List (Int × String) :=
  if (List.lookup t updateTimes).isSome then updateTimes else (t, name) :: updateTimes

/-- The decrementing trigger probe `for i := 0; true; i++ { trigTime :=
regionUpdate - int64(minimumTrigger+i); ... }` of the main file, written with
explicit fuel so that it is structurally recursive.  `probe` below supplies
enough fuel that the zero-fuel branch is never reached: the Go loop stops at
the latest when `trigTime <= firstUpdateTime`. -/
def probeGo (updateTimes : List (Int × String)) (firstTime : Int) (firstRegion : String) :
    Nat → Int → Int × String
  | 0, _ => (firstTime, firstRegion)
  | fuel + 1, t =>
    match List.lookup t updateTimes with
    | some r => (t, r)
    | none =>
      if t ≤ firstTime then (firstTime, firstRegion)
      else probeGo updateTimes firstTime firstRegion fuel (t - 1)

/-- The trigger probe started at `regionUpdate - minimumTrigger`, returning
the assigned `(TriggerTime, TriggerRegion)` pair. -/
def probe (updateTimes : List (Int × String)) (firstTime : Int) (firstRegion : String)
    (start : Int) : Int × String :=
  probeGo updateTimes firstTime firstRegion ((start - firstTime).toNat + 1) start

/-- The per-record update timestamp selection `if isMinor { regionUpdate =
region.LastMinor } else { regionUpdate = region.LastMajor }`. -/
def regionUpdateOf (isMinor : Bool) (region : RegionDump) : Int :=
  if isMinor then region.LastMinor else region.LastMajor

/-- The cursor after the missing-region skip of the matching loop
(`if hitIndex != len(hittable)-1 && canonName == hittable[hitIndex+1].Name
{ hitIndex++ }`). -/
def stepIdx (st : MatchState) (canonName : String) : Nat :=
  if st.hitIndex ≠ st.hittable.length - 1 ∧ canonName = hitNameAt st.hittable (st.hitIndex + 1)
  then st.hitIndex + 1 else st.hitIndex

/-- The update-times index as this record's step leaves it. -/
def stepTimes (isMinor : Bool) (st : MatchState) (region : RegionDump) :
    List (Int × String) :=
  insertFirstWins st.updateTimes (regionUpdateOf isMinor region) (canon region.Name)

/-- The `(trigTime, trigRegion)` pair the inner probe loop assigns for a
matched record. -/
def assignedPair (isMinor : Bool) (minTrig : Int) (firstTime : Int) (firstRegion : String)
    (st : MatchState) (region : RegionDump) : Int × String :=
  probe (stepTimes isMinor st region) firstTime firstRegion
    (regionUpdateOf isMinor region - minTrig)

/-- One iteration of `for _, region := range regions` in the trigger-matching
loop of the main file.  The `break` at `hitIndex == len(hittable)` is modelled
by making the step the identity from then on (after the break no further state
change is observable). -/
def matchStep (isMinor : Bool) (minTrig : Int) (firstTime : Int) (firstRegion : String)
    (st : MatchState) (region : RegionDump) : MatchState :=
  if st.hitIndex = st.hittable.length then st
  else if canon region.Name = hitNameAt st.hittable (stepIdx st (canon region.Name)) then
    { hittable := st.hittable.set (stepIdx st (canon region.Name))
        { hitAt st.hittable (stepIdx st (canon region.Name)) with
            UpdateTime := regionUpdateOf isMinor region,
            TriggerTime := (assignedPair isMinor minTrig firstTime firstRegion st region).1,
            TriggerRegion := (assignedPair isMinor minTrig firstTime firstRegion st region).2 },
      hitIndex := stepIdx st (canon region.Name) + 1,
      updateTimes := stepTimes isMinor st region }
  else
    { hittable := st.hittable, hitIndex := stepIdx st (canon region.Name),
      updateTimes := stepTimes isMinor st region }

/-- Update timestamp of the first dump record (`firstUpdateTime` in the main
file; the source reads `regions[0]` and would panic on an empty dump, see
`runMatcher`). -/
def snapshotFirstTime (isMinor : Bool) (regions : List RegionDump) : Int :=
  match regions with
  | [] => 0
  | r :: _ => if isMinor then r.LastMinor else r.LastMajor

/-- Name of the first dump record (`firstUpdateRegion := regions[0].Name` in
the main file — note the source stores the raw, non-canonicalized name). -/
def snapshotFirstRegion (regions : List RegionDump) : String :=
  match regions with
  | [] => ""
  | r :: _ => r.Name

/-- The whole trigger-matching pass of the main file over the daily dump.
Returns `none` exactly when the dump is empty (the Go code would panic on
`regions[0]`), otherwise the final `hittable` slice. -/
def runMatcher (isMinor : Bool) (minTrig : Int) (regions : List RegionDump)
    (hittable : List Hit) : Option (List Hit) :=
  match regions with
  | [] => none
  | _ :: _ =>
    some ((regions.foldl
      (matchStep isMinor minTrig (snapshotFirstTime isMinor regions) (snapshotFirstRegion regions))
      { hittable := hittable, hitIndex := 0, updateTimes := [] }).hittable)

/-- The update timestamp the Candidate Filter selects for a hit
(`if isMinor { updateTime = regionInfo.LastMinor } else ...` in the main
file). -/
def selectUpdateTime (isMinor : Bool) (info : RegionInfo) : Int :=
  if isMinor then info.LastMinor else info.LastMajor

/-- One iteration of the Candidate Filter and Ranker loop of the main file
(the per-endorser body after `GetNationRegion`/`GetRegioninfo` succeed):
password-protected regions are skipped, a delegate strictly below the
endorsement cap is a direct hit, a delegate below cap plus runner-up is a
deltip recording the runner-up, anything else is excluded (`none`). -/
def buildHit (isMinor : Bool) (maxEndoCount : Int) (region approval : String)
    (info : RegionInfo) : Option Hit :=
  if info.Password then none
  else
    let canonRegion := canon region
    let updateTime := selectUpdateTime isMinor info
    if info.DelEndos < maxEndoCount then
      some { Name := canonRegion, Delegate := approval, SecondNation := "", IsDeltip := false,
             UpdateTime := updateTime, TriggerRegion := "", TriggerTime := 0 }
    else if info.DelEndos < info.SecondEndos + maxEndoCount then
      some { Name := canonRegion, Delegate := approval, SecondNation := info.SecondNation,
             IsDeltip := true, UpdateTime := updateTime, TriggerRegion := "", TriggerTime := 0 }
    else none

/-- The comparator passed to `sort.Slice` in the main file:
`hittable[i].UpdateTime < hittable[j].UpdateTime`. -/
def hitLess (a b : Hit) : Bool :=
  a.UpdateTime < b.UpdateTime

/-- Models the call `sort.Slice(hittable, less)` by the documented contract of
Go's `sort.Slice`: the output is a permutation of the input in which no
element is strictly less (under the comparator) than an element before it.
Go documents `sort.Slice` as NOT guaranteed to be stable, so the contract
constrains nothing further — any such permutation is a possible output. -/
def sortSliceSpec (less : Hit → Hit → Bool) (input output : List Hit) : Prop :=
  List.Perm input output ∧ output.Pairwise (fun a b => less b a = false)

/-- One scripted API response, as `makeAPIRequest` in `ns-client.go` observes
it: the transport outcome of `httpClient.Do`, the HTTP status code, the three
rate-limit headers after `strconv.Atoi` parsing (`none` models an absent or
unparseable header, which `Atoi` turns into `0` with an ignored error), and
whether the body reads and unmarshals into the expected shape. -/
structure ApiResponse where
  netErr : Bool
  status : Int
  retryAfter : Option Int
  remaining : Option Int
  reset : Option Int
  decodeOk : Bool
deriving DecidableEq, Repr

/-- Outcome of one `makeAPIRequest` call: a returned error, a decoded value,
a runtime panic (integer division by zero), or — since the embedding scripts
only finitely many responses — exhaustion of the script while the retry loop
is still running. -/
inductive ExecOutcome where
  | fatal : String → ExecOutcome
  | ok : ExecOutcome
  | panic : ExecOutcome
  | exhausted : ExecOutcome
deriving DecidableEq, Repr

/-- Observable trace of one `makeAPIRequest` call: its outcome, the number of
requests issued (`httpClient.Do` calls), and the `time.Sleep` durations in
seconds, in order.  Sleep durations are recorded as computed by the source
(Go's `time.Sleep` treats a non-positive duration as an immediate return). -/
structure ExecTrace where
  outcome : ExecOutcome
  requests : Nat
  sleeps : List Int
deriving DecidableEq, Repr

/-- The retry loop of `makeAPIRequest` in `ns-client.go`, consuming scripted
responses in order.  On 429 it sleeps for the parsed `Retry-After` and loops;
otherwise, with at most 7 parsed `RateLimit-Remaining`, it sleeps for
`reset/remaining + 1` seconds (Go integer division truncates toward zero,
hence `Int.tdiv`; a zero `remaining` makes the unguarded division panic),
then returns an error for a non-200 status or a failed decode, and the
decoded value otherwise. -/
def runRequests : List ApiResponse → ExecTrace
  | [] => { outcome := .exhausted, requests := 0, sleeps := [] }
  | r :: rest =>
    if r.netErr then { outcome := .fatal "transport error", requests := 1, sleeps := [] }
    else if r.status = 429 then
      let t := runRequests rest
      { outcome := t.outcome, requests := t.requests + 1,
        sleeps := (r.retryAfter.getD 0) :: t.sleeps }
    else
      let remaining := r.remaining.getD 0
      if remaining ≤ 7 then
        if remaining = 0 then { outcome := .panic, requests := 1, sleeps := [] }
        else
          let slowdown := Int.tdiv (r.reset.getD 0) remaining + 1
          if r.status ≠ 200 then
            { outcome := .fatal "bad status", requests := 1, sleeps := [slowdown] }
          else if r.decodeOk then
            { outcome := .ok, requests := 1, sleeps := [slowdown] }
          else
            { outcome := .fatal "decode error", requests := 1, sleeps := [slowdown] }
      else
        if r.status ≠ 200 then
          { outcome := .fatal "bad status", requests := 1, sleeps := [] }
        else if r.decodeOk then
          { outcome := .ok, requests := 1, sleeps := [] }
        else
          { outcome := .fatal "decode error", requests := 1, sleeps := [] }

/-- `makeAPIRequest` from `ns-client.go`: fails before any request when the
process-wide user agent is unset, otherwise runs the retry loop against the
scripted responses. -/
def makeAPIRequest (userAgent : String) (script : List ApiResponse) : ExecTrace :=
  if userAgent = "" then { outcome := .fatal "no user agent set", requests := 0, sleeps := [] }
  else runRequests script

/-- One `PROPOSAL` element of the proposals query response
(`xml-structs.go`): its id attribute and the colon-delimited approvals
string. -/
structure Proposal where
  Id : String
  Approvals : String
deriving DecidableEq, Repr

/-- Structural-recursion core of `splitColon` (accumulates the current field
in reverse). -/
def splitColonGo : List Char → List Char → List String
  | [], acc => [String.mk acc.reverse]
  | c :: cs, acc =>
    if c = ':' then String.mk acc.reverse :: splitColonGo cs []
    else splitColonGo cs (c :: acc)

/-- Go's `strings.Split(s, ":")`: splits at every colon, keeping empty
fields (`Split("", ":")` is `[""]`). -/
def splitColon (s : String) : List String :=
  splitColonGo s.data []

/-- `GetProposalApprovals` from `ns-client.go`.  The two `Except` arguments
are the results of the two `makeAPIRequest[WaProposalsOuter]` calls (the
`wa=2` query consulted first, then the `wa=1` fallback); the `for ... range`
search returning at the first id match is `List.find?`. -/
def GetProposalApprovals (id : String)
    (active historical : Except String (List Proposal)) : Except String (List String) :=
  match active with
  | .error e => .error e
  | .ok ps =>
    match ps.find? (fun p => p.Id == id) with
    | some p => .ok (splitColon p.Approvals)
    | none =>
      match historical with
      | .error e => .error e
      | .ok qs =>
        match qs.find? (fun p => p.Id == id) with
        | some p => .ok (splitColon p.Approvals)
        | none => .error "proposal not found"

/-- One `NATION` element of the census ranking (`xml-structs.go`): nation
name and endorsement score. -/
structure NationEndos where
  Name : String
  Endos : Int
deriving DecidableEq, Repr

/-- The decoded region document (`RegionOuter` in `xml-structs.go`, with the
pure-plumbing XML wrapper layers `CENSUSRANKS/NATIONS` and `TAGS` collapsed
into the lists they carry). -/
structure RegionOuter where
  EndoRanks : List NationEndos
  TagArray : List String
  LastMajor : Int
  LastMinor : Int
deriving DecidableEq, Repr

/-- Total indexing into the census ranking (the source only indexes after
checking the length). -/
def endoAt (l : List NationEndos) (i : Nat) : NationEndos :=
  (l.get? i).getD { Name := "", Endos := 0 }

/-- `GetRegioninfo` from `ns-client.go`, applied to an already-decoded
response document: fewer than two ranked nations is a shape error, otherwise
the `RegionInfo` is populated from ranks 1 and 2, the `Password` tag and the
two update timestamps. -/
def GetRegioninfo (x : RegionOuter) : Except String RegionInfo :=
  if x.EndoRanks.length < 2 then .error "how tf was this even triggered"
  else .ok
    { DelEndos := (endoAt x.EndoRanks 0).Endos
      SecondEndos := (endoAt x.EndoRanks 1).Endos
      SecondNation := (endoAt x.EndoRanks 1).Name
      Password := x.TagArray.contains "Password"
      LastMinor := x.LastMinor
      LastMajor := x.LastMajor }

/-! Helper lemmas about the trigger probe and the matching step. -/

/-- Every value stored in the update-times index satisfies any property all
stored values satisfy; `List.lookup` only returns stored values. -/
theorem lookup_val_prop {P : String → Prop} :
    ∀ (l : List (Int × String)) (k : Int) (v : String),
      (∀ p ∈ l, P p.2) → List.lookup k l = some v → P v := by
  intro l
  induction l with
  | nil => intro k v _ h; simp [List.lookup] at h
  | cons a l ih =>
    intro k v hall h
    rcases a with ⟨k2, v2⟩
    rw [List.lookup] at h
    by_cases hk : k == k2
    · simp [hk] at h
      exact h ▸ hall (k2, v2) (List.mem_cons_self _ _)
    · simp [hk] at h
      exact ih k v (fun p hp => hall p (List.mem_cons_of_mem _ hp)) h

/-- The probe returns either a timestamp no later than its starting point or
the first record's timestamp, whatever the fuel. -/
theorem probeGo_fst (ut : List (Int × String)) (ft : Int) (fr : String) :
    ∀ (fuel : Nat) (t : Int),
      (probeGo ut ft fr fuel t).1 ≤ t ∨ (probeGo ut ft fr fuel t).1 = ft := by
  intro fuel
  induction fuel with
  | zero => intro t; right; rfl
  | succ n ih =>
    intro t
    rw [probeGo]
    rcases hl : List.lookup t ut with _ | r
    · by_cases hle : t ≤ ft
      · simp [hle]
      · simp only [if_neg hle]
        rcases ih (t - 1) with h | h
        · left; omega
        · right; exact h
    · simp

/-- The probe returns a nonempty region name as long as the index stores only
nonempty names and the first region's name is nonempty. -/
theorem probeGo_snd (ut : List (Int × String)) (ft : Int) (fr : String)
    (hv : ∀ p ∈ ut, p.2 ≠ "") (hfr : fr ≠ "") :
    ∀ (fuel : Nat) (t : Int), (probeGo ut ft fr fuel t).2 ≠ "" := by
  intro fuel
  induction fuel with
  | zero => intro t; exact hfr
  | succ n ih =>
    intro t
    rw [probeGo]
    rcases hl : List.lookup t ut with _ | r
    · by_cases hle : t ≤ ft
      · simp [hle]; exact hfr
      · simp only [if_neg hle]
        exact ih (t - 1)
    · exact @lookup_val_prop (fun s => s ≠ "") ut t r hv hl

/-- One matching step either leaves a hittable entry unchanged or assigns it
a trigger that is at least the minimum lead before the (snapshot) update
time, or the first record's timestamp. -/
theorem matchStep_hittable_cases (isMinor : Bool) (minTrig firstTime : Int) (firstRegion : String)
    (st : MatchState) (region : RegionDump) (i : Nat) (h : Hit)
    (hget : (matchStep isMinor minTrig firstTime firstRegion st region).hittable.get? i = some h) :
    st.hittable.get? i = some h
    ∨ (h.TriggerTime ≤ h.UpdateTime - minTrig ∨ h.TriggerTime = firstTime) := by
  unfold matchStep at hget
  split at hget
  · left; exact hget
  · split at hget
    · dsimp only at hget
      rw [List.get?_set] at hget
      split at hget
      · rcases hold : st.hittable.get? i with _ | h0
        · rw [hold] at hget; simp at hget
        · rw [hold] at hget
          simp at hget
          subst hget
          right
          rcases probeGo_fst (stepTimes isMinor st region) firstTime firstRegion
              ((regionUpdateOf isMinor region - minTrig - firstTime).toNat + 1)
              (regionUpdateOf isMinor region - minTrig) with h1 | h1
          · left; simpa [assignedPair, probe] using h1
          · right; simpa [assignedPair, probe] using h1
      · left; exact hget
    · left; exact hget

/-- Iterating the matching step preserves the per-entry alternative of
`matchStep_hittable_cases`. -/
theorem foldl_matchStep_inv (isMinor : Bool) (minTrig firstTime : Int) (firstRegion : String) :
    ∀ (rs : List RegionDump) (st : MatchState) (i : Nat) (h : Hit),
      ((rs.foldl (matchStep isMinor minTrig firstTime firstRegion) st).hittable.get? i = some h) →
      st.hittable.get? i = some h
      ∨ (h.TriggerTime ≤ h.UpdateTime - minTrig ∨ h.TriggerTime = firstTime) := by
  intro rs
  induction rs with
  | nil => intro st i h hget; left; exact hget
  | cons r rs ih =>
    intro st i h hget
    rw [List.foldl_cons] at hget
    rcases ih _ i h hget with hstep | hgood
    · exact matchStep_hittable_cases isMinor minTrig firstTime firstRegion st r i h hstep
    · right; exact hgood

/-- The probe satisfies the backward-search recurrence of the source's inner
loop: at each timestamp, an indexed hit is taken; otherwise, at or below the
first record's timestamp the fallback is taken; otherwise the probe moves one
second earlier. -/
theorem probe_unfold (ut : List (Int × String)) (ft : Int) (fr : String) (start : Int) :
    probe ut ft fr start =
      match List.lookup start ut with
      | some r => (start, r)
      | none => if start ≤ ft then (ft, fr) else probe ut ft fr (start - 1) := by
  rcases hl : List.lookup start ut with _ | r
  · by_cases hle : start ≤ ft
    · rw [probe, probeGo, hl]
      simp [hle]
    · have hfuel : (start - ft).toNat + 1 = ((start - 1 - ft).toNat + 1) + 1 := by omega
      rw [probe, hfuel, probeGo, hl]
      simp [hle, probe]
  · rw [probe, probeGo, hl]

/-- C1 (amended): for every candidate to which the Trigger Matcher assigns a
trigger — with minimum lead time at least 1 and candidates entering the pass
with no trigger — the assigned trigger timestamp is less than the
candidate's snapshot-authoritative update timestamp by at least the minimum
lead time, or equals the snapshot's first record's timestamp (the fallback);
consequently the trigger is never after the candidate's update timestamp
whenever the snapshot's first record does not update after the candidate (as
holds for dumps in authoritative update order). -/
theorem c1_trigger_lead_or_first (isMinor : Bool) (minTrig : Int)
    (regions : List RegionDump) (hits out : List Hit)
    (hmt : 1 ≤ minTrig)
    (hinit : ∀ h ∈ hits, h.TriggerRegion = "")
    (hrun : runMatcher isMinor minTrig regions hits = some out) :
    ∀ h ∈ out, h.TriggerRegion ≠ "" →
      (h.TriggerTime ≤ h.UpdateTime - minTrig
        ∨ h.TriggerTime = snapshotFirstTime isMinor regions)
      ∧ (snapshotFirstTime isMinor regions ≤ h.UpdateTime → h.TriggerTime ≤ h.UpdateTime) := by
  intro h hmem htr
  rcases regions with _ | ⟨r0, rest⟩
  · simp [runMatcher] at hrun
  · rw [runMatcher] at hrun
    injection hrun with hout
    subst hout
    rcases List.mem_iff_get?.mp hmem with ⟨i, hget⟩
    rcases foldl_matchStep_inv isMinor minTrig (snapshotFirstTime isMinor (r0 :: rest))
        (snapshotFirstRegion (r0 :: rest)) (r0 :: rest) _ i h hget with hsame | hgood
    · exact absurd (hinit h (List.get?_mem hsame)) htr
    · refine ⟨hgood, fun hft => ?_⟩
      rcases hgood with h1 | h1 <;> omega

/-- C1 (witness): the amended invariant applied to the concrete snapshot
A@1000, B@1004, C@1010 and candidate c with minimum lead 6. -/
theorem c1_trigger_lead_or_first_witness :
    ((1004 : Int) ≤ 1010 - 6
      ∨ (1004 : Int) = snapshotFirstTime false [⟨"A", 0, 1000⟩, ⟨"B", 0, 1004⟩, ⟨"C", 0, 1010⟩])
    ∧ (snapshotFirstTime false [⟨"A", 0, 1000⟩, ⟨"B", 0, 1004⟩, ⟨"C", 0, 1010⟩] ≤ 1010
      → (1004 : Int) ≤ 1010) :=
  c1_trigger_lead_or_first false 6 [⟨"A", 0, 1000⟩, ⟨"B", 0, 1004⟩, ⟨"C", 0, 1010⟩]
    [⟨"c", "d", "", false, 999, "", 0⟩] [⟨"c", "d", "", false, 1010, "b", 1004⟩]
    (by decide) (by decide) (by decide)
    ⟨"c", "d", "", false, 1010, "b", 1004⟩ (by decide) (by decide)

/-- C1 (counterexample): on a dump whose first record updates at 2000, after
the candidate region r1 which updates at 1000, the fallback assigns trigger
timestamp 2000, which is after the candidate's update timestamp — so the
unconditional never-after part of the claim fails on the code. -/
theorem c1_never_after_counterexample :
    ¬ (∀ h ∈ (runMatcher false 6 [⟨"Z", 0, 2000⟩, ⟨"R1", 0, 1000⟩]
        [⟨"r1", "d", "", false, 1000, "", 0⟩]).getD [],
        h.TriggerRegion ≠ "" → h.TriggerTime ≤ h.UpdateTime) := by
  decide

/-- C2: the matcher's backward search obeys the claimed recurrence (first
indexed timestamp when decrementing from update minus lead, else the
snapshot's first region once the probe reaches the first timestamp), and on
the snapshot A@1000, B@1004, C@1010 with candidate C (stale provisional
update time 999, overwritten to the snapshot's 1010) minLeadTime 6 yields
trigger b@1004 and minLeadTime 20 yields the fallback A@1000. -/
theorem c2_probe_recurrence_and_examples :
    (∀ (ut : List (Int × String)) (ft : Int) (fr : String) (start : Int),
      probe ut ft fr start =
        match List.lookup start ut with
        | some r => (start, r)
        | none => if start ≤ ft then (ft, fr) else probe ut ft fr (start - 1))
    ∧ runMatcher false 6 [⟨"A", 0, 1000⟩, ⟨"B", 0, 1004⟩, ⟨"C", 0, 1010⟩]
        [⟨"c", "d", "", false, 999, "", 0⟩]
        = some [⟨"c", "d", "", false, 1010, "b", 1004⟩]
    ∧ runMatcher false 20 [⟨"A", 0, 1000⟩, ⟨"B", 0, 1004⟩, ⟨"C", 0, 1010⟩]
        [⟨"c", "d", "", false, 999, "", 0⟩]
        = some [⟨"c", "d", "", false, 1010, "A", 1000⟩] :=
  ⟨probe_unfold, by decide, by decide⟩

/-- C3: for a non-password-protected region the Ranker includes a direct hit
exactly when the delegate's endorsement count is strictly below the cap, an
assisted hit recording the runner-up as secondary endorser exactly when the
count is not below the cap but strictly below cap plus the runner-up's
count, and excludes the region otherwise; with cap 5, counts 4/2 give a
direct hit, 6/2 an assisted hit, and 8/2 exclusion. -/
theorem c3_ranker_classification (isMinor : Bool) (maxEndoCount : Int)
    (region approval : String) (info : RegionInfo) (hpw : info.Password = false) :
    ((∃ h, buildHit isMinor maxEndoCount region approval info = some h ∧ h.IsDeltip = false)
      ↔ info.DelEndos < maxEndoCount)
    ∧ ((∃ h, buildHit isMinor maxEndoCount region approval info = some h ∧ h.IsDeltip = true
          ∧ h.SecondNation = info.SecondNation)
      ↔ (¬ info.DelEndos < maxEndoCount ∧ info.DelEndos < maxEndoCount + info.SecondEndos))
    ∧ (buildHit isMinor maxEndoCount region approval info = none
      ↔ (¬ info.DelEndos < maxEndoCount ∧ ¬ info.DelEndos < maxEndoCount + info.SecondEndos))
    ∧ (∃ h, buildHit false 5 "r" "d" ⟨4, 2, "ru", false, 0, 0⟩ = some h ∧ h.IsDeltip = false)
    ∧ (∃ h, buildHit false 5 "r" "d" ⟨6, 2, "ru", false, 0, 0⟩ = some h ∧ h.IsDeltip = true
        ∧ h.SecondNation = "ru")
    ∧ buildHit false 5 "r" "d" ⟨8, 2, "ru", false, 0, 0⟩ = none := by
  have hcomm : info.SecondEndos + maxEndoCount = maxEndoCount + info.SecondEndos := by omega
  refine ⟨?_, ?_, ?_,
    ⟨⟨"r", "d", "", false, 0, "", 0⟩, by decide, by decide⟩,
    ⟨⟨"r", "d", "ru", true, 0, "", 0⟩, by decide, by decide, by decide⟩,
    by decide⟩
  · by_cases h1 : info.DelEndos < maxEndoCount
    · simp [buildHit, hpw, h1]
    · by_cases h2 : info.DelEndos < info.SecondEndos + maxEndoCount
      · simp [buildHit, hpw, h1, h2]
      · simp [buildHit, hpw, h1, h2]
  · by_cases h1 : info.DelEndos < maxEndoCount
    · simp [buildHit, hpw, h1]
    · by_cases h2 : info.DelEndos < info.SecondEndos + maxEndoCount
      · simp [buildHit, hpw, h1, h2, hcomm ▸ h2]
      · simp [buildHit, hpw, h1, h2]
        omega
  · by_cases h1 : info.DelEndos < maxEndoCount
    · simp [buildHit, hpw, h1]
    · by_cases h2 : info.DelEndos < info.SecondEndos + maxEndoCount
      · simp [buildHit, hpw, h1, h2]
        omega
      · simp [buildHit, hpw, h1, h2]
        omega

/-- C3 (witness): classification applied to the non-password region with
delegate count 4, runner-up 2 and cap 5: a direct hit. -/
theorem c3_ranker_classification_witness :
    ∃ h, buildHit false 5 "reg" "del" ⟨4, 2, "ru", false, 0, 0⟩ = some h ∧ h.IsDeltip = false :=
  (c3_ranker_classification false 5 "reg" "del" ⟨4, 2, "ru", false, 0, 0⟩ (by decide)).1.mpr
    (by decide)

/-- C6: the approvals lookup consults the currently active resolution class
first, falls back to the historical class when the id is absent there,
returns the colon-split endorser string on whichever path finds the id, and
reports "proposal not found" exactly when the id is absent from both. -/
theorem c6_approvals_fallback (id : String) (l1 l2 : List Proposal) :
    ((∀ p ∈ l1, p.Id ≠ id) → (∀ p ∈ l2, p.Id ≠ id) →
      GetProposalApprovals id (.ok l1) (.ok l2) = .error "proposal not found")
    ∧ (∀ p, l1.find? (fun q => q.Id == id) = some p →
      GetProposalApprovals id (.ok l1) (.ok l2) = .ok (splitColon p.Approvals))
    ∧ ((∀ p ∈ l1, p.Id ≠ id) → ∀ p, l2.find? (fun q => q.Id == id) = some p →
      GetProposalApprovals id (.ok l1) (.ok l2) = .ok (splitColon p.Approvals))
    ∧ (GetProposalApprovals id (.ok l1) (.ok l2) = .error "proposal not found" →
      (∀ p ∈ l1, p.Id ≠ id) ∧ (∀ p ∈ l2, p.Id ≠ id)) := by
  have hchar : ∀ (l : List Proposal), (∀ p ∈ l, p.Id ≠ id) ↔ l.find? (fun q => q.Id == id) = none := by
    intro l
    rw [List.find?_eq_none]
    constructor
    · intro h p hp
      simpa using h p hp
    · intro h p hp
      simpa using h p hp
  refine ⟨?_, ?_, ?_, ?_⟩
  · intro h1 h2
    simp [GetProposalApprovals, (hchar l1).mp h1, (hchar l2).mp h2]
  · intro p hp
    simp [GetProposalApprovals, hp]
  · intro h1 p hp
    simp [GetProposalApprovals, (hchar l1).mp h1, hp]
  · intro heq
    rcases hf1 : l1.find? (fun q => q.Id == id) with _ | p
    · rcases hf2 : l2.find? (fun q => q.Id == id) with _ | p
      · exact ⟨(hchar l1).mpr hf1, (hchar l2).mpr hf2⟩
      · simp [GetProposalApprovals, hf1, hf2] at heq
    · simp [GetProposalApprovals, hf1] at heq

/-- C6 (witness): an id present only in the historical class yields the
colon-split endorser list through the fallback path. -/
theorem c6_approvals_fallback_witness :
    GetProposalApprovals "px" (.ok [⟨"py", "a"⟩]) (.ok [⟨"px", "a:b"⟩]) = .ok ["a", "b"] :=
  (c6_approvals_fallback "px" [⟨"py", "a"⟩] [⟨"px", "a:b"⟩]).2.2.1
    (by decide) ⟨"px", "a:b"⟩ (by decide)

/-- C7: a region-info response with fewer than two ranked nations fails with
the shape error and produces no `RegionInfo` at all; with at least two it
returns rank-1 and rank-2 endorsement counts, the runner-up's name, the
password flag (presence of the Password tag) and both update timestamps. -/
theorem c7_regioninfo_shape (x : RegionOuter) :
    (x.EndoRanks.length < 2 → GetRegioninfo x = .error "how tf was this even triggered")
    ∧ (∀ r0 r1 rest, x.EndoRanks = r0 :: r1 :: rest →
      GetRegioninfo x = .ok
        { DelEndos := r0.Endos, SecondEndos := r1.Endos, SecondNation := r1.Name,
          Password := x.TagArray.contains "Password", LastMinor := x.LastMinor,
          LastMajor := x.LastMajor }) := by
  constructor
  · intro h
    simp [GetRegioninfo, h]
  · intro r0 r1 rest h
    have hlen : ¬ x.EndoRanks.length < 2 := by
      rw [h]
      simp
  -- length (r0 :: r1 :: rest) = rest.length + 2
    simp [GetRegioninfo, hlen, endoAt, h]

/-- C7 (witness): a two-nation ranking with a Password tag produces the
fully-populated record. -/
theorem c7_regioninfo_shape_witness :
    GetRegioninfo ⟨[⟨"del", 6⟩, ⟨"ru", 2⟩], ["Password"], 50, 40⟩
      = .ok
        { DelEndos := 6, SecondEndos := 2, SecondNation := "ru",
          Password := (["Password"].contains "Password"), LastMinor := 40, LastMajor := 50 } :=
  (c7_regioninfo_shape ⟨[⟨"del", 6⟩, ⟨"ru", 2⟩], ["Password"], 50, 40⟩).2
    ⟨"del", 6⟩ ⟨"ru", 2⟩ [] (by decide)

/-- C5: a 429 response makes the executor sleep for the parsed Retry-After
value and re-issue the identical request, so the call's outcome is exactly
that of the remaining script (a 429 never surfaces as an error); moreover
any number of consecutive 429s is absorbed — after n throttled responses and
one good one the call succeeds, having issued n+1 requests and slept the n
server-dictated waits, with no retry counter anywhere. -/
theorem c5_429_unbounded_retry (ua : String) (r g : ApiResponse) (rest : List ApiResponse)
    (n : Nat) (hua : ua ≠ "") (hnet : r.netErr = false) (hst : r.status = 429) :
    makeAPIRequest ua (r :: rest)
      = { outcome := (makeAPIRequest ua rest).outcome,
          requests := (makeAPIRequest ua rest).requests + 1,
          sleeps := (r.retryAfter.getD 0) :: (makeAPIRequest ua rest).sleeps }
    ∧ (g.netErr = false → g.status = 200 → 7 < g.remaining.getD 0 → g.decodeOk = true →
      (makeAPIRequest ua (List.replicate n r ++ [g])).outcome = .ok
      ∧ (makeAPIRequest ua (List.replicate n r ++ [g])).requests = n + 1
      ∧ (makeAPIRequest ua (List.replicate n r ++ [g])).sleeps
          = List.replicate n (r.retryAfter.getD 0)) := by
  constructor
  · simp [makeAPIRequest, hua, runRequests, hnet, hst]
  · intro hgn hgs hgr hgd
    induction n with
    | zero =>
      have hg429 : ¬ g.status = 429 := by omega
      have hgr7 : ¬ g.remaining.getD 0 ≤ 7 := by omega
      simp [makeAPIRequest, hua, runRequests, hgn, hgs, hg429, hgr7, hgd]
    | succ m ih =>
      rcases ih with ⟨ih1, ih2, ih3⟩
      rw [List.replicate_succ, List.cons_append]
      simp [makeAPIRequest, hua, runRequests, hnet, hst, List.replicate_succ]
      rw [makeAPIRequest, if_neg hua] at ih1 ih2 ih3
      exact ⟨ih1, ih2, ih3⟩

/-- C5 (witness): one 429 with Retry-After 5 followed by a clean 200: the
call succeeds after two requests and one five-second wait. -/
theorem c5_429_unbounded_retry_witness :
    (makeAPIRequest "u" (List.replicate 1 ⟨false, 429, some 5, none, none, false⟩
        ++ [⟨false, 200, none, some 20, some 10, true⟩])).outcome = .ok
    ∧ (makeAPIRequest "u" (List.replicate 1 ⟨false, 429, some 5, none, none, false⟩
        ++ [⟨false, 200, none, some 20, some 10, true⟩])).requests = 1 + 1
    ∧ (makeAPIRequest "u" (List.replicate 1 ⟨false, 429, some 5, none, none, false⟩
        ++ [⟨false, 200, none, some 20, some 10, true⟩])).sleeps
        = List.replicate 1 ((some (5 : Int)).getD 0) :=
  (c5_429_unbounded_retry "u" ⟨false, 429, some 5, none, none, false⟩
      ⟨false, 200, none, some 20, some 10, true⟩ [] 1
      (by decide) (by decide) (by decide)).2
    (by decide) (by decide) (by decide) (by decide)

/-- C9 (amended): for a non-429 response whose parsed remaining budget is at
most 7 and nonzero, the executor sleeps exactly reset tdiv remaining plus
one second before returning; above the watermark it does not sleep at all.
At a parsed remaining of zero the claim fails: the unguarded division
panics (see the counterexample and C10). -/
theorem c9_low_watermark_slowdown (ua : String) (r : ApiResponse) (rest : List ApiResponse)
    (hua : ua ≠ "") (hnet : r.netErr = false) (hst : r.status ≠ 429) :
    (r.remaining.getD 0 ≤ 7 → r.remaining.getD 0 ≠ 0 →
      (makeAPIRequest ua (r :: rest)).sleeps
        = [Int.tdiv (r.reset.getD 0) (r.remaining.getD 0) + 1])
    ∧ (7 < r.remaining.getD 0 → (makeAPIRequest ua (r :: rest)).sleeps = []) := by
  constructor
  · intro hle hne
    by_cases hs200 : r.status = 200
    · by_cases hdec : r.decodeOk
      · simp [makeAPIRequest, hua, runRequests, hnet, hst, hle, hne, hs200, hdec]
      · simp [makeAPIRequest, hua, runRequests, hnet, hst, hle, hne, hs200, hdec]
    · simp [makeAPIRequest, hua, runRequests, hnet, hst, hle, hne, hs200]
  · intro hgt
    have hle : ¬ r.remaining.getD 0 ≤ 7 := by omega
    by_cases hs200 : r.status = 200
    · by_cases hdec : r.decodeOk
      · simp [makeAPIRequest, hua, runRequests, hnet, hst, hle, hs200, hdec]
      · simp [makeAPIRequest, hua, runRequests, hnet, hst, hle, hs200, hdec]
    · simp [makeAPIRequest, hua, runRequests, hnet, hst, hle, hs200]

/-- C9 (witness): remaining 3 with reset 10 on a clean 200 sleeps exactly
10 tdiv 3 + 1 = 4 seconds; remaining 20 sleeps not at all. -/
theorem c9_low_watermark_slowdown_witness :
    ((some (3 : Int)).getD 0 ≤ 7 → (some (3 : Int)).getD 0 ≠ 0 →
      (makeAPIRequest "u" [⟨false, 200, none, some 3, some 10, true⟩]).sleeps
        = [Int.tdiv ((some (10 : Int)).getD 0) ((some (3 : Int)).getD 0) + 1])
    ∧ (7 < (some (3 : Int)).getD 0 →
      (makeAPIRequest "u" [⟨false, 200, none, some 3, some 10, true⟩]).sleeps = []) :=
  c9_low_watermark_slowdown "u" ⟨false, 200, none, some 3, some 10, true⟩ []
    (by decide) (by decide) (by decide)

/-- C9 (counterexample): a 200 response whose RateLimit-Remaining parses to
0 satisfies the at-most-7 watermark, yet the executor does not block for
reset/remaining + 1 seconds and does not return — it panics on the division
by zero, so the claim as stated fails at this input. -/
theorem c9_zero_remaining_counterexample :
    makeAPIRequest "u" [⟨false, 200, none, some 0, some 10, true⟩]
      = { outcome := .panic, requests := 1, sleeps := [] }
    ∧ (makeAPIRequest "u" [⟨false, 200, none, some 0, some 10, true⟩]).sleeps
      ≠ [Int.tdiv ((some (10 : Int)).getD 0) ((some (0 : Int)).getD 0) + 1] := by
  constructor
  · decide
  · decide

/-- C10: whenever the parsed RateLimit-Remaining of a non-429 response is 0
— the header being absent, unparseable or literally zero — the slowdown
branch is reached (0 is at most the watermark 7) and its unguarded division
reset/remaining is a division by zero: the call panics, issuing exactly one
request and sleeping never. -/
theorem c10_division_by_zero (ua : String) (r : ApiResponse) (rest : List ApiResponse)
    (hua : ua ≠ "") (hnet : r.netErr = false) (hst : r.status ≠ 429)
    (hrem : r.remaining.getD 0 = 0) :
    makeAPIRequest ua (r :: rest) = { outcome := .panic, requests := 1, sleeps := [] } := by
  have hle : r.remaining.getD 0 ≤ 7 := by omega
  simp [makeAPIRequest, hua, runRequests, hnet, hst, hle, hrem]

/-- C10 (witness): a 200 response with RateLimit-Remaining header "0"
panics. -/
theorem c10_division_by_zero_witness :
    makeAPIRequest "u" [⟨false, 200, none, some 0, some 10, true⟩]
      = { outcome := .panic, requests := 1, sleeps := [] } :=
  c10_division_by_zero "u" ⟨false, 200, none, some 0, some 10, true⟩ []
    (by decide) (by decide) (by decide) (by decide)

/-- C8 (amended): every output permitted by the sort.Slice contract with the
source's comparator is a permutation of the candidate list that is ascending
in update timestamp; the order of equal timestamps is NOT constrained
(sort.Slice is documented as not guaranteed stable — see the
counterexample). -/
theorem c8_sort_ascending (input output : List Hit) (h : sortSliceSpec hitLess input output) :
    List.Perm input output
    ∧ output.Pairwise (fun a b => a.UpdateTime ≤ b.UpdateTime) := by
  refine ⟨h.1, List.Pairwise.imp ?_ h.2⟩
  intro a b hab
  simp [hitLess] at hab
  exact hab

/-- C8 (witness): the amended statement applied to a singleton list. -/
theorem c8_sort_ascending_witness :
    List.Perm [(⟨"a", "d", "", false, 5, "", 0⟩ : Hit)] [(⟨"a", "d", "", false, 5, "", 0⟩ : Hit)]
    ∧ List.Pairwise (fun a b => a.UpdateTime ≤ b.UpdateTime)
      [(⟨"a", "d", "", false, 5, "", 0⟩ : Hit)] :=
  c8_sort_ascending _ _ ⟨List.Perm.refl _, by decide⟩

/-- C8 (counterexample): two distinct candidates with equal update
timestamps can legally come out of sort.Slice in reversed relative order —
the contract the code relies on does not guarantee stability, refuting the
tie-preservation claim. -/
theorem c8_stability_counterexample :
    sortSliceSpec hitLess
      [⟨"a", "d1", "", false, 5, "", 0⟩, ⟨"b", "d2", "", false, 5, "", 0⟩]
      [⟨"b", "d2", "", false, 5, "", 0⟩, ⟨"a", "d1", "", false, 5, "", 0⟩]
    ∧ (⟨"a", "d1", "", false, 5, "", 0⟩ : Hit) ≠ ⟨"b", "d2", "", false, 5, "", 0⟩
    ∧ Hit.UpdateTime ⟨"a", "d1", "", false, 5, "", 0⟩
      = Hit.UpdateTime ⟨"b", "d2", "", false, 5, "", 0⟩ :=
  ⟨⟨List.Perm.swap _ _ _, by decide⟩, by decide, by decide⟩

/-! Helper lemmas for the cursor-progress analysis of the matching loop. -/

/-- Once the cursor has reached the end of the candidate list, further dump
records leave the state untouched (the source breaks out of the loop). -/
theorem foldl_matchStep_fixed (isMinor : Bool) (minTrig firstTime : Int) (firstRegion : String) :
    ∀ (rs : List RegionDump) (st : MatchState),
      st.hitIndex = st.hittable.length →
      rs.foldl (matchStep isMinor minTrig firstTime firstRegion) st = st := by
  intro rs
  induction rs with
  | nil => intro st _; rfl
  | cons r rs ih =>
    intro st h
    rw [List.foldl_cons]
    have hstep : matchStep isMinor minTrig firstTime firstRegion st r = st := by
      unfold matchStep
      rw [if_pos h]
    rw [hstep]
    exact ih st h

/-- One matching step does not change the length of the hittable list. -/
theorem matchStep_length (isMinor : Bool) (minTrig firstTime : Int) (firstRegion : String)
    (st : MatchState) (region : RegionDump) :
    (matchStep isMinor minTrig firstTime firstRegion st region).hittable.length
      = st.hittable.length := by
  unfold matchStep
  split
  · rfl
  · split
    · simp [List.length_set]
    · rfl

/-- The whole pass does not change the length of the hittable list. -/
theorem foldl_matchStep_length (isMinor : Bool) (minTrig firstTime : Int) (firstRegion : String) :
    ∀ (rs : List RegionDump) (st : MatchState),
      (rs.foldl (matchStep isMinor minTrig firstTime firstRegion) st).hittable.length
        = st.hittable.length := by
  intro rs
  induction rs with
  | nil => intro st; rfl
  | cons r rs ih =>
    intro st
    rw [List.foldl_cons, ih]
    exact matchStep_length isMinor minTrig firstTime firstRegion st r

/-- The name under the cursor is the corresponding entry of the name list. -/
theorem hitNameAt_map (l : List Hit) (i : Nat) :
    hitNameAt l i = (l.map Hit.Name).getD i "" := by
  rw [hitNameAt, hitAt, List.getD_eq_get?, List.get?_map]
  rcases h : l.get? i with _ | a
  · simp [emptyHit]
  · simp

/-- Setting a list entry to its current value is the identity. -/
theorem set_self_eq {α : Type} (l : List α) (i : Nat) (a : α) (h : l.get? i = some a) :
    l.set i a = l := by
  apply List.ext_get?
  intro j
  by_cases hj : i = j
  · subst hj
    have hlt : i < l.length := by
      by_contra hge
      rw [List.get?_eq_none.mpr (Nat.le_of_not_lt hge)] at h
      cases h
    rw [List.get?_set_eq_of_lt _ hlt, h]
  · rw [List.get?_set_ne _ _ hj]

/-- The entry at an in-range index belongs to the suffix dropped there. -/
theorem getD_mem_drop (names : List String) (k : Nat) (hk : k < names.length) :
    names.getD k "" ∈ names.drop k := by
  rw [List.getD_eq_get?, List.get?_eq_get hk]
  rw [List.drop_eq_get_cons hk]
  exact List.mem_cons_self _ _

/-- Membership in a later suffix implies membership in an earlier one. -/
theorem mem_drop_succ_mem (names : List String) (k : Nat) (x : String)
    (h : x ∈ names.drop (k + 1)) : x ∈ names.drop k := by
  have hdd : names.drop (k + 1) = List.drop 1 (names.drop k) := by
    rw [List.drop_drop]
  rw [hdd] at h
  exact List.drop_subset 1 (names.drop k) h

/-- Narrowing a membership filter from a suffix to the sub-suffix the filter
already produced reproduces the sub-suffix. -/
theorem filter_narrow (A sub sup : List String)
    (hss : ∀ x ∈ sub, x ∈ sup)
    (hfil : A.filter (fun nm => decide (nm ∈ sup)) = sub) :
    A.filter (fun nm => decide (nm ∈ sub)) = sub := by
  have h1 : A.filter (fun nm => decide (nm ∈ sub))
      = (A.filter (fun nm => decide (nm ∈ sup))).filter (fun nm => decide (nm ∈ sub)) := by
    rw [List.filter_filter]
    apply List.filter_congr
    intro a _
    by_cases hm : a ∈ sub
    · simp [hm, hss a hm]
    · simp [hm]
  rw [h1, hfil, List.filter_eq_self]
  intro a ha
  simpa using ha

/-- When the dump records bearing remaining candidate names are exactly the
remaining candidates' (pairwise distinct) names in cursor order, the
matching loop assigns every candidate a (nonempty) trigger region. -/
theorem matchLoop_assigns (isMinor : Bool) (minTrig firstTime : Int) (firstRegion : String)
    (hfr : firstRegion ≠ "") (names : List String) (hnodup : names.Nodup) :
    ∀ (rs : List RegionDump) (st : MatchState),
      st.hittable.map Hit.Name = names →
      st.hitIndex ≤ names.length →
      (∀ i, i < st.hitIndex → ∃ h, st.hittable.get? i = some h ∧ h.TriggerRegion ≠ "") →
      (∀ p ∈ st.updateTimes, p.2 ≠ "") →
      (∀ r ∈ rs, canon r.Name ≠ "") →
      ((rs.map fun r => canon r.Name).filter (fun nm => decide (nm ∈ names.drop st.hitIndex))
          = names.drop st.hitIndex) →
      ∀ i, i < names.length →
        ∃ h, (rs.foldl (matchStep isMinor minTrig firstTime firstRegion) st).hittable.get? i
            = some h ∧ h.TriggerRegion ≠ "" := by
  intro rs
  induction rs with
  | nil =>
    intro st hnames hk hassigned hut hrn hfil i hi
    have hdrop : names.drop st.hitIndex = [] := by simpa using hfil.symm
    have hge : names.length ≤ st.hitIndex := List.drop_eq_nil_iff.mp hdrop
    exact hassigned i (lt_of_lt_of_le hi hge)
  | cons r rs ih =>
    intro st hnames hk hassigned hut hrn hfil i hi
    have hlen : st.hittable.length = names.length := by
      rw [← hnames]
      exact (List.length_map st.hittable Hit.Name).symm
    have hut2 : ∀ p ∈ stepTimes isMinor st r, p.2 ≠ "" := by
      intro p hp
      unfold stepTimes insertFirstWins at hp
      split at hp
      · exact hut p hp
      · rcases List.mem_cons.mp hp with hp1 | hp2
        · rw [hp1]
          exact hrn r (List.mem_cons_self _ _)
        · exact hut p hp2
    rcases Nat.lt_or_ge st.hitIndex names.length with hklt | hkge
    · have hhl : st.hitIndex ≠ st.hittable.length := by omega
      have hdropcons : names.drop st.hitIndex
          = names.get ⟨st.hitIndex, hklt⟩ :: names.drop (st.hitIndex + 1) :=
        List.drop_eq_get_cons hklt
      have hgetD : names.getD st.hitIndex "" = names.get ⟨st.hitIndex, hklt⟩ := by
        rw [List.getD_eq_get?, List.get?_eq_get hklt]
        rfl
      have hcursorname : hitNameAt st.hittable st.hitIndex = names.get ⟨st.hitIndex, hklt⟩ := by
        rw [hitNameAt_map, hnames, hgetD]
      have hnextname : st.hitIndex + 1 < names.length →
          hitNameAt st.hittable (st.hitIndex + 1) ∈ names.drop st.hitIndex := by
        intro hk1
        rw [hitNameAt_map, hnames]
        exact mem_drop_succ_mem names _ _ (getD_mem_drop names _ hk1)
      by_cases hmem : canon r.Name ∈ names.drop st.hitIndex
      · have hfil2 : canon r.Name :: ((rs.map fun x => canon x.Name).filter
            (fun nm => decide (nm ∈ names.drop st.hitIndex))) = names.drop st.hitIndex := by
          have htmp := hfil
          rw [List.map_cons, List.filter_cons] at htmp
          simp only [hmem, decide_True, if_true] at htmp
          exact htmp
        rw [hdropcons] at hfil2
        injection hfil2 with hhead htail
        have hnd : (names.drop st.hitIndex).Nodup :=
          List.Nodup.sublist (List.drop_sublist _ _) hnodup
        have hheadnotin : names.get ⟨st.hitIndex, hklt⟩ ∉ names.drop (st.hitIndex + 1) := by
          rw [hdropcons] at hnd
          exact (List.nodup_cons.mp hnd).1
        have hidx : stepIdx st (canon r.Name) = st.hitIndex := by
          unfold stepIdx
          rw [if_neg]
          rintro ⟨hne1, heq⟩
          have hk1 : st.hitIndex + 1 < names.length := by omega
          have hnext_mem : names.getD (st.hitIndex + 1) "" ∈ names.drop (st.hitIndex + 1) :=
            getD_mem_drop names _ hk1
          rw [hitNameAt_map, hnames] at heq
          rw [hhead] at heq
          exact hheadnotin (heq ▸ hnext_mem)
        have hcond : canon r.Name = hitNameAt st.hittable (stepIdx st (canon r.Name)) := by
          rw [hidx, hcursorname, hhead]
        have hstep : matchStep isMinor minTrig firstTime firstRegion st r
            = { hittable := st.hittable.set st.hitIndex
                  { hitAt st.hittable st.hitIndex with
                      UpdateTime := regionUpdateOf isMinor r,
                      TriggerTime := (assignedPair isMinor minTrig firstTime firstRegion st r).1,
                      TriggerRegion := (assignedPair isMinor minTrig firstTime firstRegion st r).2 },
                hitIndex := st.hitIndex + 1,
                updateTimes := stepTimes isMinor st r } := by
          unfold matchStep
          rw [if_neg hhl, if_pos hcond, hidx]
        have htrig : (assignedPair isMinor minTrig firstTime firstRegion st r).2 ≠ "" := by
          unfold assignedPair probe
          exact probeGo_snd _ _ _ hut2 hfr _ _
        rw [List.foldl_cons, hstep]
        refine ih _ ?_ ?_ ?_ hut2 (fun x hx => hrn x (List.mem_cons_of_mem _ hx)) ?_ i hi
        · show (st.hittable.set st.hitIndex _).map Hit.Name = names
          rw [List.map_set, hnames]
          have hnewname : ({ hitAt st.hittable st.hitIndex with
              UpdateTime := regionUpdateOf isMinor r,
              TriggerTime := (assignedPair isMinor minTrig firstTime firstRegion st r).1,
              TriggerRegion := (assignedPair isMinor minTrig firstTime firstRegion st r).2 }).Name
              = names.get ⟨st.hitIndex, hklt⟩ := hcursorname
          rw [hnewname]
          exact set_self_eq names st.hitIndex _ (List.get?_eq_get hklt)
        · show st.hitIndex + 1 ≤ names.length
          omega
        · intro j hj
          have hj2 : j < st.hitIndex + 1 := hj
          rcases Nat.lt_or_ge j st.hitIndex with hjlt | hjge
          · rcases hassigned j hjlt with ⟨h0, hh0, htr0⟩
            refine ⟨h0, ?_, htr0⟩
            show (st.hittable.set st.hitIndex _).get? j = some h0
            rw [List.get?_set_ne _ _ (by omega)]
            exact hh0
          · have hjeq : j = st.hitIndex := by omega
            refine ⟨{ hitAt st.hittable st.hitIndex with
                UpdateTime := regionUpdateOf isMinor r,
                TriggerTime := (assignedPair isMinor minTrig firstTime firstRegion st r).1,
                TriggerRegion := (assignedPair isMinor minTrig firstTime firstRegion st r).2 },
              ?_, htrig⟩
            show (st.hittable.set st.hitIndex _).get? j = some _
            rw [hjeq, List.get?_set_eq_of_lt]
            omega
        · show (rs.map fun x => canon x.Name).filter
              (fun nm => decide (nm ∈ names.drop (st.hitIndex + 1)))
              = names.drop (st.hitIndex + 1)
          exact filter_narrow _ _ (names.get ⟨st.hitIndex, hklt⟩ :: names.drop (st.hitIndex + 1))
            (fun x hx => List.mem_cons_of_mem _ hx) htail
      · have hidx : stepIdx st (canon r.Name) = st.hitIndex := by
          unfold stepIdx
          rw [if_neg]
          rintro ⟨hne1, heq⟩
          have hk1 : st.hitIndex + 1 < names.length := by omega
          exact hmem (heq ▸ hnextname hk1)
        have hcond : ¬ (canon r.Name = hitNameAt st.hittable (stepIdx st (canon r.Name))) := by
          rw [hidx, hcursorname]
          intro heq
          exact hmem (heq ▸ (hdropcons ▸ List.mem_cons_self _ _))
        have hstep : matchStep isMinor minTrig firstTime firstRegion st r
            = { hittable := st.hittable, hitIndex := st.hitIndex,
                updateTimes := stepTimes isMinor st r } := by
          unfold matchStep
          rw [if_neg hhl, if_neg hcond, hidx]
        have hfil2 : (rs.map fun x => canon x.Name).filter
            (fun nm => decide (nm ∈ names.drop st.hitIndex)) = names.drop st.hitIndex := by
          have htmp := hfil
          rw [List.map_cons, List.filter_cons] at htmp
          simp only [hmem, decide_False, if_false] at htmp
          exact htmp
        rw [List.foldl_cons, hstep]
        refine ih _ ?_ ?_ ?_ ?_ ?_ ?_ i hi
        · exact hnames
        · exact hk
        · exact hassigned
        · exact hut2
        · exact fun x hx => hrn x (List.mem_cons_of_mem _ hx)
        · exact hfil2
    · have hfix : (r :: rs).foldl (matchStep isMinor minTrig firstTime firstRegion) st = st :=
        foldl_matchStep_fixed isMinor minTrig firstTime firstRegion (r :: rs) st (by omega)
      rw [hfix]
      exact hassigned i (by omega)

/-- C4 (amended): every candidate is assigned a trigger by the end of the
matching pass provided the candidates' canonical names are pairwise
distinct and the dump records bearing candidate names are exactly the
candidates' names in candidate-list order, each occurring once (and the
names involved are nonempty).  Without that proviso a candidate whose name
appears in the snapshot can still be left without a trigger — the
skip-forward only handles a single absent candidate whose immediate
successor's record arrives (see the counterexample). -/
theorem c4_ordered_present_all_assigned (isMinor : Bool) (minTrig : Int)
    (regions : List RegionDump) (hits out : List Hit)
    (hnodup : (hits.map Hit.Name).Nodup)
    (hfil : (regions.map fun r => canon r.Name).filter
        (fun nm => decide (nm ∈ hits.map Hit.Name)) = hits.map Hit.Name)
    (hrn : ∀ r ∈ regions, canon r.Name ≠ "")
    (hfr : snapshotFirstRegion regions ≠ "")
    (hrun : runMatcher isMinor minTrig regions hits = some out) :
    ∀ h ∈ out, h.TriggerRegion ≠ "" := by
  intro h hmem
  rcases regions with _ | ⟨r0, rest⟩
  · simp [runMatcher] at hrun
  · rw [runMatcher] at hrun
    injection hrun with hout
    subst hout
    rcases List.mem_iff_get?.mp hmem with ⟨i, hget⟩
    have hilen : i < hits.length := by
      have hnn : ¬ ((r0 :: rest).foldl (matchStep isMinor minTrig
          (snapshotFirstTime isMinor (r0 :: rest)) (snapshotFirstRegion (r0 :: rest)))
          { hittable := hits, hitIndex := 0, updateTimes := [] }).hittable.get? i = none := by
        rw [hget]
        intro hc
        cases hc
      have hilt : i < ((r0 :: rest).foldl (matchStep isMinor minTrig
          (snapshotFirstTime isMinor (r0 :: rest)) (snapshotFirstRegion (r0 :: rest)))
          { hittable := hits, hitIndex := 0, updateTimes := [] }).hittable.length := by
        by_contra hge
        exact hnn (List.get?_eq_none.mpr (Nat.le_of_not_lt hge))
      have hlenf := foldl_matchStep_length isMinor minTrig
        (snapshotFirstTime isMinor (r0 :: rest)) (snapshotFirstRegion (r0 :: rest))
        (r0 :: rest) { hittable := hits, hitIndex := 0, updateTimes := [] }
      have hred : ({ hittable := hits, hitIndex := 0, updateTimes := [] } :
          MatchState).hittable.length = hits.length := rfl
      omega
    rcases matchLoop_assigns isMinor minTrig (snapshotFirstTime isMinor (r0 :: rest))
        (snapshotFirstRegion (r0 :: rest)) hfr (hits.map Hit.Name) hnodup (r0 :: rest)
        { hittable := hits, hitIndex := 0, updateTimes := [] } rfl (by simp)
        (by intro j hj; cases hj) (by intro p hp; cases hp) hrn
        (by simpa using hfil) i (by simpa using hilen) with ⟨h2, hget2, htr2⟩
    rw [hget] at hget2
    injection hget2 with hh
    rw [hh]
    exact htr2

/-- C4 (witness): the amended statement applied to dump A@1000, B@1004 and
the single candidate b, which ends up assigned the fallback trigger A. -/
theorem c4_ordered_present_all_assigned_witness :
    (⟨"b", "d", "", false, 1004, "A", 1000⟩ : Hit).TriggerRegion ≠ "" :=
  c4_ordered_present_all_assigned false 6 [⟨"A", 0, 1000⟩, ⟨"B", 0, 1004⟩]
    [⟨"b", "d", "", false, 1004, "", 0⟩] [⟨"b", "d", "", false, 1004, "A", 1000⟩]
    (by decide) (by decide) (by decide) (by decide) (by decide)
    ⟨"b", "d", "", false, 1004, "A", 1000⟩ (by decide)

/-- C4 (counterexample): with candidates x1, x2, y (x1 and x2 absent from
the dump) and dump A@1000, Y@1010, the candidate y — whose canonical name
does appear in the snapshot — is left without a trigger: the cursor sticks
at x1 because the skip-forward only compares against the immediately next
candidate.  This refutes the claim that every candidate present in the
snapshot is assigned a trigger. -/
theorem c4_present_unassigned_counterexample :
    ((([⟨"A", 0, 1000⟩, ⟨"Y", 0, 1010⟩] : List RegionDump).map
        fun r => canon r.Name).contains "y" = true)
    ∧ ¬ (∀ h ∈ (runMatcher false 6 [⟨"A", 0, 1000⟩, ⟨"Y", 0, 1010⟩]
        [⟨"x1", "d1", "", false, 900, "", 0⟩, ⟨"x2", "d2", "", false, 905, "", 0⟩,
         ⟨"y", "d3", "", false, 910, "", 0⟩]).getD [],
        h.Name = "y" → h.TriggerRegion ≠ "") := by
  constructor
  · decide
  · decide

end Quorate
